import Mathlib

/-!
Verification of the python-rl backend of the minecraft-classic repository.

The definitions below are a shallow embedding of the Python sources:
`websocket_server.py` (GameWebSocketServer), `minecraft_env.py`
(MinecraftHideSeekEnv), `ppo_trainer.py` (CheckpointManager and the
resume logic in `train`).  Asynchronous waiting is modelled by passing,
to each blocking call, the list of inbound frames delivered while the
caller is suspended; wall-clock values (timestamps) are omitted and the
10-second reply deadline appears as the rational constant
`replyTimeoutSeconds`.  Python floats are embedded as rationals and
Python strings over names as `String` or `List Char`.
-/

set_option maxHeartbeats 1000000

namespace MinecraftRL

/-- One entry of the `agents` array of an inbound observation message
(protocol of `websocket_server.py` / `minecraft_env.py`).  `reward` and
`done` are optional because the Python code reads them with
`.get('reward', 0.0)` / `.get('done', False)`. -/
structure AgentData where
  id : String
  observation : List ℚ
  reward : Option ℚ
  done : Option Bool
  role : String
deriving DecidableEq

/-- An inbound message of type `observation`.  `episode_done` is read by the
environment with `.get('episode_done', False)`, hence optional.  `replyTo` is
a ghost tag recording which outbound command the simulation produced this
reply for; the Python code never reads it (the protocol carries no request
identifiers), and no definition below inspects it. -/
structure Observation where
  agents : List AgentData
  episode_done : Option Bool
  replyTo : Nat
deriving DecidableEq

/-- Inbound frames as classified by `GameWebSocketServer.handle_message`:
a parsed message whose `type` is `observation`, a parsed message of any
other type, or a frame that fails JSON parsing. -/
inductive InMsg where
  | observation (payload : Observation)
  | other (t : String)
  | malformed (raw : String)
deriving DecidableEq

/-- Per-actor outbound action payload built in `MinecraftHideSeekEnv.step`
(and identically in `demo_model.run_demo`). -/
structure BrowserAction where
  movement_forward : ℚ
  movement_strafe : ℚ
  rotation : ℚ
  look : ℚ
  jump : Bool
  place_block : Bool
  remove_block : Bool
deriving DecidableEq

/-- Outbound commands sent by `reset_episode` and `step` of
`GameWebSocketServer`. -/
inductive OutMsg where
  | resetCmd (episode : Nat)
  | stepCmd (actions : List (String × BrowserAction))
deriving DecidableEq

/-- Mutable state of `GameWebSocketServer` (`__init__`, lines 12-20).
The transport handle `self.websocket` is modelled by `hasWebsocket`. -/
structure Server where
  connected : Bool
  hasWebsocket : Bool
  current_episode : Nat
  episode_active : Bool
  pending_observation : Option Observation
  observation_event : Bool
deriving DecidableEq

/-- The server state right after `__init__`. -/
def initialServer : Server :=
  { connected := false
    hasWebsocket := false
    current_episode := 0
    episode_active := false
    pending_observation := none
    observation_event := false }

/-- `GameWebSocketServer.handle_message` (lines 55-82): an `observation`
message is stored in `pending_observation` and the event is set,
unconditionally; any other recognized type is only logged; a parse failure
is only logged.  The returned list is the console output. -/
def handle_message (st : Server) (msg : InMsg) : Server × List String :=
  match msg with
  | .observation payload =>
      ({ st with pending_observation := some payload, observation_event := true }, [])
  | .other t => (st, ["Received: " ++ t])
  | .malformed _ => (st, ["Failed to parse message"])

deriving instance DecidableEq for Except

/-- Behaviour of the underlying transport `self.websocket.send(...)`:
either it succeeds or it raises an exception carrying a message. -/
inductive TransportOutcome where
  | sendOk
  | sendRaises (e : String)
deriving DecidableEq

/-- Result of one `send_message` call: `outcome` is what the coroutine
returns to its caller (`.error` would model an uncaught exception),
`delivered` whether the transport actually sent the frame. -/
structure SendResult where
  outcome : Except String Unit
  state : Server
  message : OutMsg
  log : List String
  delivered : Bool
deriving DecidableEq

/-- `GameWebSocketServer.send_message` (lines 125-133): when connected with a
live handle it tries the transport send and catches any exception, printing
it; otherwise it prints a warning.  In every branch it returns normally. -/
def send_message (st : Server) (msg : OutMsg) (transport : TransportOutcome) :
    SendResult :=
  if st.connected && st.hasWebsocket then
    match transport with
    | .sendOk =>
        { outcome := .ok (), state := st, message := msg, log := [], delivered := true }
    | .sendRaises e =>
        { outcome := .ok (), state := st, message := msg
          log := ["Error sending message: " ++ e], delivered := false }
  else
    { outcome := .ok (), state := st, message := msg
      log := ["Cannot send message - not connected"], delivered := false }

/-- The 10-second deadline passed to `asyncio.wait_for` in `reset_episode`
and `step` (`timeout=10.0`). -/
def replyTimeoutSeconds : ℚ := 10

/-- `await asyncio.wait_for(self.observation_event.wait(), timeout=10.0)`:
the frames in `arrivals` are delivered (and processed by `handle_message`)
while the caller is suspended; the waiter resumes as soon as the event is
set, and the call times out when the event is never set before the deadline.
Returns whether the event fired, together with the server state at resume. -/
def awaitEvent : Server → List InMsg → Bool × Server
  | st, [] => if st.observation_event then (true, st) else (false, st)
  | st, m :: rest =>
      if st.observation_event then (true, st)
      else awaitEvent (handle_message st m).1 rest

/-- Errors a `reset_episode`/`step` call can surface.  The code only ever
produces `timeoutError` (from expiry of the full `waitedSeconds = 10`
deadline); `notConnectedError` is the error the specification names for a
send without a peer, included so that its absence is statable. -/
inductive CallError where
  | timeoutError (waitedSeconds : ℚ)
  | notConnectedError
deriving DecidableEq

/-- Result of one `reset_episode` or `step` call: the value returned (or the
error raised) to the caller, the server state afterwards, whether the
outbound command was actually delivered by the transport, and the console
output of the send. -/
structure CallResult where
  result : Except CallError (Option Observation)
  state : Server
  delivered : Bool
  log : List String
deriving DecidableEq

/-- `GameWebSocketServer.step` (lines 106-123): clear the pending slot and
the event, send the `step` command, wait (deadline 10 s) for the event, then
read and clear the slot.  On timeout the `asyncio.TimeoutError` propagates
before the post-wait lines run. -/
def serverStep (st : Server) (actions : List (String × BrowserAction))
    (transport : TransportOutcome) (arrivals : List InMsg) : CallResult :=
  let st1 : Server := { st with pending_observation := none, observation_event := false }
  let sr := send_message st1 (.stepCmd actions) transport
  match awaitEvent sr.state arrivals with
  | (true, st2) =>
      { result := .ok st2.pending_observation
        state := { st2 with pending_observation := none, observation_event := false }
        delivered := sr.delivered
        log := sr.log }
  | (false, st2) =>
      { result := .error (.timeoutError replyTimeoutSeconds)
        state := st2
        delivered := sr.delivered
        log := sr.log }

/-- `GameWebSocketServer.reset_episode` (lines 84-104): same shape as `step`
with a `reset` command; on success it additionally marks the episode active
and records the episode number. -/
def reset_episode (st : Server) (episode : Nat)
    (transport : TransportOutcome) (arrivals : List InMsg) : CallResult :=
  let st1 : Server := { st with pending_observation := none, observation_event := false }
  let sr := send_message st1 (.resetCmd episode) transport
  match awaitEvent sr.state arrivals with
  | (true, st2) =>
      { result := .ok st2.pending_observation
        state := { st2 with
                   pending_observation := none
                   observation_event := false
                   episode_active := true
                   current_episode := episode }
        delivered := sr.delivered
        log := sr.log }
  | (false, st2) =>
      { result := .error (.timeoutError replyTimeoutSeconds)
        state := st2
        delivered := sr.delivered
        log := sr.log }

/-- Mutable state of `MinecraftHideSeekEnv` (`minecraft_env.py`,
`__init__` lines 39-73): episode and step counters, the configured
`max_steps`, and the agent-id bookkeeping filled in by `reset`. -/
structure MinecraftEnv where
  current_episode : Nat
  current_step : Nat
  max_steps : Nat
  agent_ids : List String
  seeker_ids : List String
  hider_ids : List String
deriving DecidableEq

/-- The environment state right after construction with the given
`max_steps` configuration value. -/
def initialEnv (max_steps : Nat) : MinecraftEnv :=
  { current_episode := 0
    current_step := 0
    max_steps := max_steps
    agent_ids := []
    seeker_ids := []
    hider_ids := [] }

/-- Conversion of one 7-component continuous action vector to the browser
payload (`MinecraftHideSeekEnv.step` lines 117-125, identical in
`demo_model.run_demo` lines 205-213): components 0-3 pass through as floats,
components 4-6 are thresholded strictly against 0.5. -/
def toBrowserAction (action : Fin 7 → ℚ) : BrowserAction :=
  { movement_forward := action 0
    movement_strafe := action 1
    rotation := action 2
    look := action 3
    jump := decide (action 4 > 0.5)
    place_block := decide (action 5 > 0.5)
    remove_block := decide (action 6 > 0.5) }

/-- The `browser_actions` dictionary built by `MinecraftHideSeekEnv.step`
lines 115-125 from the per-agent action vectors. -/
def envBrowserActions (action_dict : List (String × (Fin 7 → ℚ))) :
    List (String × BrowserAction) :=
  action_dict.map (fun p => (p.1, toBrowserAction p.2))

/-- The tuple returned by `MinecraftHideSeekEnv.step` (dictionaries are
modelled as association lists; the `__all__` entries of the `terminateds`
and `truncateds` dictionaries are the two `All` fields). -/
structure EnvStepResult where
  observations : List (String × List ℚ)
  rewards : List (String × ℚ)
  terminateds : List (String × Bool)
  truncateds : List (String × Bool)
  terminatedAll : Bool
  truncatedAll : Bool
deriving DecidableEq

/-- `MinecraftHideSeekEnv.step` (lines 111-159): increment the step counter,
convert the actions, exchange them for `step_data` over the server (the
exchange is abstracted by taking the reply `step_data` as an argument), then
build the per-agent dictionaries; `terminateds['__all__']` is the reply's
`episode_done` (default `False`) and `truncateds['__all__']` compares the
incremented step counter with `max_steps`.  Also returns the outbound
per-actor payloads that were sent. -/
def envStep (st : MinecraftEnv) (action_dict : List (String × (Fin 7 → ℚ)))
    (step_data : Observation) :
    MinecraftEnv × List (String × BrowserAction) × EnvStepResult :=
  let st1 : MinecraftEnv := { st with current_step := st.current_step + 1 }
  let browser_actions := envBrowserActions action_dict
  let agents := step_data.agents
  (st1, browser_actions,
    { observations := agents.map (fun a => (a.id, a.observation))
      rewards := agents.map (fun a => (a.id, a.reward.getD 0))
      terminateds := agents.map (fun a => (a.id, a.done.getD false))
      truncateds := agents.map (fun a => (a.id, decide (st1.current_step ≥ st1.max_steps)))
      terminatedAll := step_data.episode_done.getD false
      truncatedAll := decide (st1.current_step ≥ st1.max_steps) })

/-- The agent-id bookkeeping of `MinecraftHideSeekEnv.reset` lines 89-99:
each agent id seen in the reply is appended once, classified by role. -/
def registerAgents (st : MinecraftEnv) (agents : List AgentData) : MinecraftEnv :=
  agents.foldl
    (fun s a =>
      if a.id ∈ s.agent_ids then s
      else
        { s with
          agent_ids := s.agent_ids ++ [a.id]
          seeker_ids := if a.role = "seeker" then s.seeker_ids ++ [a.id] else s.seeker_ids
          hider_ids := if a.role = "seeker" then s.hider_ids else s.hider_ids ++ [a.id] })
    st

/-- `MinecraftHideSeekEnv.reset` (lines 75-109): increments the episode
counter, zeroes the step counter, and sends a `reset` command carrying the
incremented counter (the `seed` argument is forwarded to the superclass
RNG seeding only and `options` is ignored; neither influences the episode
number).  The awaited reply `obs_data` is taken as an argument; the sent
command is returned alongside the new state and per-agent observations. -/
def envReset (st : MinecraftEnv) (seed : Option Nat) (options : Option String)
    (obs_data : Observation) :
    MinecraftEnv × OutMsg × List (String × List ℚ) :=
  let _ := seed
  let _ := options
  let st1 : MinecraftEnv :=
    { st with current_episode := st.current_episode + 1, current_step := 0 }
  let cmd := OutMsg.resetCmd st1.current_episode
  let st2 := registerAgents st1 obs_data.agents
  (st2, cmd, obs_data.agents.map (fun a => (a.id, a.observation)))

/-- The episode numbers carried by the `reset` commands of a sequence of
`reset` calls, each call described by its `seed`/`options` arguments and
the observation reply it receives. -/
def resetEpisodesSent :
    MinecraftEnv → List (Option Nat × Option String × Observation) → List Nat
  | _, [] => []
  | st, (seed, options, obs) :: rest =>
      let r := envReset st seed options obs
      (match r.2.1 with
       | .resetCmd e => e
       | .stepCmd _ => 0) :: resetEpisodesSent r.1 rest

/-- Decimal digits of `n`, most significant first, computed with explicit
fuel so that the definition reduces by evaluation (the fuel `n` itself is
always sufficient, see `ofDigitsL_natDigitsAux`). -/
def natDigitsAux : Nat → Nat → List Nat
  | 0, n => [n % 10]
  | fuel + 1, n => if n < 10 then [n] else natDigitsAux fuel (n / 10) ++ [n % 10]

/-- Decimal digits of `n`, most significant first. -/
def natDigits (n : Nat) : List Nat := natDigitsAux n n

/-- Value of a most-significant-first digit list. -/
def ofDigitsL (ds : List Nat) : Nat := ds.foldl (fun a d => a * 10 + d) 0

/-- The character for a decimal digit. -/
def digitChar : Nat → Char
  | 0 => '0'
  | 1 => '1'
  | 2 => '2'
  | 3 => '3'
  | 4 => '4'
  | 5 => '5'
  | 6 => '6'
  | 7 => '7'
  | 8 => '8'
  | _ => '9'

/-- The digit value of a decimal character. -/
def charToDigit (c : Char) : Nat := c.toNat - 48

/-- Python `f"{n:06d}"`: the decimal digits of `n` left-padded with `'0'`
to a minimum width of 6 characters. -/
def pad06 (n : Nat) : List Char :=
  let ds := (natDigits n).map digitChar
  List.replicate (6 - ds.length) '0' ++ ds

/-- The checkpoint directory name `f"checkpoint_{iteration:06d}"`
(`CheckpointManager.save_checkpoint`, ppo_trainer.py line 119). -/
def checkpointName (iteration : Nat) : List Char :=
  "checkpoint_".data ++ pad06 iteration

/-- Python `str.split('_')`: splits a character list at every underscore. -/
def splitUnd : List Char → List (List Char)
  | [] => [[]]
  | c :: t =>
      if c = '_' then [] :: splitUnd t
      else
        match splitUnd t with
        | [] => [[c]]
        | h :: r => (c :: h) :: r

/-- Python `int(s)` restricted to the plain unsigned decimal strings that
occur here: succeeds on a non-empty all-digit string, fails otherwise
(a failure corresponds to the `ValueError` caught in `train`). -/
def parseNat (cs : List Char) : Option Nat :=
  if cs ≠ [] ∧ cs.all Char.isDigit then
    some (cs.foldl (fun a c => a * 10 + charToDigit c) 0)
  else none

/-- Python `pat in s` on strings: whether `pat` occurs as a contiguous
substring of `s`. -/
def hasSublist (pat : List Char) : List Char → Bool
  | [] => pat.isEmpty
  | c :: t => pat.isPrefixOf (c :: t) || hasSublist pat t

/-- The resume logic of `train` (ppo_trainer.py lines 512-521): starting
iteration 1 by default; when restoring from a checkpoint whose directory
name contains `'checkpoint_'`, the numeric piece after the first underscore
gives the iteration, and training continues from the next one.  Any failure
of the extraction (too few pieces, non-numeric piece) is caught by the bare
`except` and leaves the default 1. -/
def startIteration (restore_checkpoint : Option (List Char)) : Nat :=
  match restore_checkpoint with
  | none => 1
  | some name =>
      if hasSublist "checkpoint_".data name then
        match (splitUnd name).get? 1 with
        | some piece =>
            match parseNat piece with
            | some k => k + 1
            | none => 1
        | none => 1
      else 1

/-- One entry of `self.checkpoint_history` / `checkpoint_index.json`
(`CheckpointManager.save_checkpoint` lines 147-151).  The wall-clock
`timestamp` field is omitted: no retention or lookup decision reads it. -/
structure CheckpointRecord where
  iteration : Nat
  path : List Char
deriving DecidableEq

/-- In-memory state of `CheckpointManager` (ppo_trainer.py lines 71-86). -/
structure CheckpointManager where
  keep_last_n : Nat
  checkpoint_history : List CheckpointRecord
deriving DecidableEq

/-- A manager constructed against an empty root (no index file found by
`_load_checkpoint_index`). -/
def freshManager (keep_last_n : Nat) : CheckpointManager :=
  { keep_last_n := keep_last_n, checkpoint_history := [] }

/-- `CheckpointManager._cleanup_old_checkpoints` (lines 163-179): when the
history exceeds `keep_last_n`, the directories of `history[:-keep_last_n]`
are removed from disk and the history is cut to `history[-keep_last_n:]`.
The set `disk` holds the names of the checkpoint directories present in the
checkpoint root. -/
def cleanupOld (m : CheckpointManager) (disk : Finset (List Char)) :
    CheckpointManager × Finset (List Char) :=
  if m.checkpoint_history.length ≤ m.keep_last_n then (m, disk)
  else
    let cut := m.checkpoint_history.length - m.keep_last_n
    let toDelete := m.checkpoint_history.take cut
    let disk1 := toDelete.foldl (fun d cp => d.erase cp.path) disk
    ({ m with checkpoint_history := m.checkpoint_history.drop cut }, disk1)

/-- `CheckpointManager.save_checkpoint` (lines 106-161), state part: the
`trainer.save(checkpoint_path)` call and the metadata write create the
directory `checkpoint_{iteration:06d}` on disk, a record is appended to
the history, the index is rewritten, and when `keep_last_n > 0` the old
checkpoints are cleaned up. -/
def save_checkpoint (m : CheckpointManager) (disk : Finset (List Char))
    (iteration : Nat) : CheckpointManager × Finset (List Char) :=
  let name := checkpointName iteration
  let disk1 := insert name disk
  let m1 : CheckpointManager :=
    { m with checkpoint_history :=
        m.checkpoint_history ++ [{ iteration := iteration, path := name }] }
  if 0 < m.keep_last_n then cleanupOld m1 disk1 else (m1, disk1)

/-- A sequence of `save_checkpoint` calls at the given iterations. -/
def saveAll (md : CheckpointManager × Finset (List Char)) (its : List Nat) :
    CheckpointManager × Finset (List Char) :=
  its.foldl (fun p i => save_checkpoint p.1 p.2 i) md

/-- What `CheckpointManager.__init__` finds on disk: the contents of
`checkpoint_index.json` if that file exists, and the set of checkpoint
directories present under the root. -/
structure CheckpointFS where
  index_file : Option (List CheckpointRecord)
  dirs : Finset (List Char)

/-- `CheckpointManager._load_checkpoint_index` (lines 88-95) as run by
`__init__`: when `checkpoint_index.json` exists its `checkpoints` entry
becomes the history; otherwise the body does nothing and the history stays
empty — the directories on disk are not consulted. -/
def load_checkpoint_index (keep_last_n : Nat) (fs : CheckpointFS) :
    CheckpointManager :=
  match fs.index_file with
  | some records => { keep_last_n := keep_last_n, checkpoint_history := records }
  | none => { keep_last_n := keep_last_n, checkpoint_history := [] }

/-- `CheckpointManager.get_latest_checkpoint` (lines 181-187): `None` on an
empty history, otherwise the directory name of the last record (the
constant checkpoint-root prefix of the returned path is dropped). -/
def get_latest_checkpoint (m : CheckpointManager) : Option (List Char) :=
  match m.checkpoint_history.getLast? with
  | some cp => some cp.path
  | none => none

/-- The last `n` elements of a list (Python `l[-n:]` for `n ≥ 1`). -/
def takeLast {α : Type} (n : Nat) (l : List α) : List α := l.drop (l.length - n)

/-- The record appended to the history by a save at `iteration`. -/
def mkRecord (iteration : Nat) : CheckpointRecord :=
  { iteration := iteration, path := checkpointName iteration }

/-- Invariant shape of the manager after saves at the iterations
`processed` with retention `N`: the history holds the last `N` of them. -/
def historyOf (N : Nat) (processed : List Nat) : CheckpointManager :=
  { keep_last_n := N, checkpoint_history := (takeLast N processed).map mkRecord }

/-- Invariant shape of the disk after saves at the iterations `processed`
with retention `N`: exactly the directories of the last `N` of them. -/
def diskOf (N : Nat) (processed : List Nat) : Finset (List Char) :=
  ((takeLast N processed).map checkpointName).toFinset

/-- A concrete observation payload used as a late (stale) reply to the
first outbound command (ghost tag `replyTo = 0`). -/
def staleReply : Observation := { agents := [], episode_done := none, replyTo := 0 }

/-- A concrete server state with a live connected peer. -/
def connectedServer : Server :=
  { initialServer with connected := true, hasWebsocket := true }

/-! Helper lemmas about the bridge. -/

theorem send_message_state (st : Server) (msg : OutMsg) (t : TransportOutcome) :
    (send_message st msg t).state = st := by
  unfold send_message
  cases t <;> by_cases h : st.connected && st.hasWebsocket <;> simp [h]

theorem awaitEvent_mem (arrivals : List InMsg) :
    ∀ st : Server, st.observation_event = false →
    (awaitEvent st arrivals).1 = true →
    ∃ p : Observation,
      (awaitEvent st arrivals).2.pending_observation = some p ∧
      InMsg.observation p ∈ arrivals := by
  induction arrivals with
  | nil =>
      intro st h hw
      rw [awaitEvent] at hw
      simp [h] at hw
  | cons m rest ih =>
      intro st h hw
      rw [awaitEvent] at hw ⊢
      simp only [h, Bool.false_eq_true, if_false] at hw ⊢
      cases m with
      | observation p =>
          refine ⟨p, ?_, List.mem_cons_self _ _⟩
          have hev : ((handle_message st (InMsg.observation p)).1).observation_event = true := rfl
          cases rest with
          | nil => rw [awaitEvent]; simp [handle_message]
          | cons m2 rest2 => rw [awaitEvent]; simp [handle_message]
      | other t =>
          obtain ⟨p, h1, h2⟩ := ih _ h hw
          exact ⟨p, h1, List.mem_cons_of_mem _ h2⟩
      | malformed raw =>
          obtain ⟨p, h1, h2⟩ := ih _ h hw
          exact ⟨p, h1, List.mem_cons_of_mem _ h2⟩

theorem serverStep_ok_mem (st : Server) (a : List (String × BrowserAction))
    (t : TransportOutcome) (arr : List InMsg) (p : Observation)
    (h : (serverStep st a t arr).result = .ok (some p)) :
    InMsg.observation p ∈ arr := by
  simp only [serverStep, send_message_state] at h
  set st1 : Server :=
    { st with pending_observation := none, observation_event := false } with hst1
  have hev : st1.observation_event = false := rfl
  rcases hw : awaitEvent st1 arr with ⟨fired, st2⟩
  rw [hw] at h
  cases fired with
  | false => simp at h
  | true =>
      simp at h
      obtain ⟨q, hq1, hq2⟩ := awaitEvent_mem arr st1 hev (by rw [hw])
      rw [hw] at hq1
      simp at hq1
      rw [hq1] at h
      cases h
      exact hq2

theorem reset_episode_ok_mem (st : Server) (e : Nat)
    (t : TransportOutcome) (arr : List InMsg) (p : Observation)
    (h : (reset_episode st e t arr).result = .ok (some p)) :
    InMsg.observation p ∈ arr := by
  simp only [reset_episode, send_message_state] at h
  set st1 : Server :=
    { st with pending_observation := none, observation_event := false } with hst1
  have hev : st1.observation_event = false := rfl
  rcases hw : awaitEvent st1 arr with ⟨fired, st2⟩
  rw [hw] at h
  cases fired with
  | false => simp at h
  | true =>
      simp at h
      obtain ⟨q, hq1, hq2⟩ := awaitEvent_mem arr st1 hev (by rw [hw])
      rw [hw] at hq1
      simp at hq1
      rw [hq1] at h
      cases h
      exact hq2

theorem registerAgents_counters (ags : List AgentData) :
    ∀ st : MinecraftEnv,
      (registerAgents st ags).current_episode = st.current_episode ∧
      (registerAgents st ags).current_step = st.current_step := by
  induction ags with
  | nil => intro st; exact ⟨rfl, rfl⟩
  | cons a rest ih =>
      intro st
      unfold registerAgents at ih ⊢
      rw [List.foldl_cons]
      refine ⟨?_, ?_⟩ <;>
        [rw [(ih _).1]; rw [(ih _).2]] <;> by_cases h : a.id ∈ st.agent_ids <;> simp [h]

/-! Helper lemmas about decimal digits and checkpoint names. -/

theorem ofDigitsL_append_singleton (ds : List Nat) (d : Nat) :
    ofDigitsL (ds ++ [d]) = ofDigitsL ds * 10 + d := by
  simp [ofDigitsL, List.foldl_append]

theorem natDigitsAux_spec :
    ∀ fuel n, n ≤ fuel →
      natDigitsAux fuel n ≠ [] ∧ (∀ d ∈ natDigitsAux fuel n, d < 10) ∧
      ofDigitsL (natDigitsAux fuel n) = n := by
  intro fuel
  induction fuel with
  | zero =>
      intro n hn
      have h0 : n = 0 := Nat.le_zero.mp hn
      subst h0
      exact ⟨by simp [natDigitsAux], by simp [natDigitsAux], by simp [natDigitsAux, ofDigitsL]⟩
  | succ fuel ih =>
      intro n hn
      by_cases h : n < 10
      · refine ⟨by simp [natDigitsAux, h], by simp [natDigitsAux, h], ?_⟩
        simp [natDigitsAux, h, ofDigitsL]
      · have hdiv : n / 10 ≤ fuel := by
          have : n / 10 < n := Nat.div_lt_self (by omega) (by omega)
          omega
        obtain ⟨h1, h2, h3⟩ := ih (n / 10) hdiv
        rw [natDigitsAux]
        simp only [h, if_false]
        refine ⟨by simp, ?_, ?_⟩
        · intro d hd
          rcases List.mem_append.mp hd with hd | hd
          · exact h2 d hd
          · simp at hd; omega
        · rw [ofDigitsL_append_singleton, h3]
          omega

theorem natDigits_spec (n : Nat) :
    natDigits n ≠ [] ∧ (∀ d ∈ natDigits n, d < 10) ∧ ofDigitsL (natDigits n) = n :=
  natDigitsAux_spec n n (Nat.le_refl n)

theorem charToDigit_digitChar (d : Nat) (h : d < 10) :
    charToDigit (digitChar d) = d := by
  interval_cases d <;> decide

theorem isDigit_digitChar (d : Nat) (h : d < 10) : (digitChar d).isDigit = true := by
  interval_cases d <;> decide

theorem pad06_all_digit (n : Nat) : ∀ c ∈ pad06 n, c.isDigit = true := by
  intro c hc
  rcases List.mem_append.mp hc with hc | hc
  · rw [List.eq_of_mem_replicate hc]; decide
  · obtain ⟨d, hd, rfl⟩ := List.mem_map.mp hc
    exact isDigit_digitChar d ((natDigits_spec n).2.1 d hd)

theorem foldl_digitChars (ds : List Nat) (hds : ∀ d ∈ ds, d < 10) :
    ∀ a, (ds.map digitChar).foldl (fun a c => a * 10 + charToDigit c) a
      = ds.foldl (fun a d => a * 10 + d) a := by
  induction ds with
  | nil => intro a; rfl
  | cons d rest ih =>
      intro a
      simp only [List.map_cons, List.foldl_cons]
      rw [charToDigit_digitChar d (hds d (List.mem_cons_self d rest))]
      exact ih (fun x hx => hds x (List.mem_cons_of_mem d hx)) _

theorem foldl_replicate_zeroChar (k : Nat) :
    (List.replicate k '0').foldl (fun a c => a * 10 + charToDigit c) 0 = 0 := by
  induction k with
  | zero => rfl
  | succ k ih => simpa [List.replicate_succ, charToDigit] using ih

theorem parseNat_pad06 (n : Nat) : parseNat (pad06 n) = some n := by
  obtain ⟨h1, h2, h3⟩ := natDigits_spec n
  have hne : pad06 n ≠ [] := by
    simp only [pad06, ne_eq, List.append_eq_nil, not_and]
    intro _
    simpa using h1
  have hall : (pad06 n).all Char.isDigit = true := by
    rw [List.all_eq_true]
    exact pad06_all_digit n
  rw [parseNat, if_pos ⟨hne, hall⟩]
  congr 1
  show (List.replicate _ '0' ++ (natDigits n).map digitChar).foldl _ 0 = n
  rw [List.foldl_append, foldl_replicate_zeroChar, foldl_digitChars _ h2]
  exact h3

theorem checkpointName_inj : Function.Injective checkpointName := by
  intro a b h
  have hp : pad06 a = pad06 b := by
    have := h
    unfold checkpointName at this
    exact List.append_cancel_left this
  have := parseNat_pad06 a
  rw [hp, parseNat_pad06 b] at this
  exact (Option.some_injective _ this).symm

theorem pad06_no_underscore (n : Nat) : ∀ c ∈ pad06 n, c ≠ '_' := by
  intro c hc habs
  have := pad06_all_digit n c hc
  rw [habs] at this
  simp [Char.isDigit] at this

theorem splitUnd_no_sep (cs : List Char) (h : ∀ c ∈ cs, c ≠ '_') :
    splitUnd cs = [cs] := by
  induction cs with
  | nil => rfl
  | cons c t ih =>
      rw [splitUnd]
      rw [if_neg (h c (List.mem_cons_self c t))]
      rw [ih (fun x hx => h x (List.mem_cons_of_mem c hx))]

theorem splitUnd_first_sep (a : List Char) (b : List Char)
    (h : ∀ c ∈ a, c ≠ '_') :
    splitUnd (a ++ '_' :: b) = a :: splitUnd b := by
  induction a with
  | nil => simp [splitUnd]
  | cons c t ih =>
      rw [List.cons_append, splitUnd,
        if_neg (h c (List.mem_cons_self c t)),
        ih (fun x hx => h x (List.mem_cons_of_mem c hx))]

theorem isPrefixOf_self_append (p r : List Char) : p.isPrefixOf (p ++ r) = true := by
  induction p with
  | nil => simp [List.isPrefixOf]
  | cons c t ih => simp [List.cons_append, List.isPrefixOf, ih]

theorem hasSublist_self_append (c : Char) (p r : List Char) :
    hasSublist (c :: p) ((c :: p) ++ r) = true := by
  rw [List.cons_append, hasSublist]
  rw [show ((c :: p).isPrefixOf (c :: (p ++ r))) = true from isPrefixOf_self_append (c :: p) r]
  rfl

theorem startIteration_checkpointName (n : Nat) :
    startIteration (some (checkpointName n)) = n + 1 := by
  have hname : checkpointName n = "checkpoint".data ++ '_' :: pad06 n := by
    show "checkpoint_".data ++ pad06 n = _
    rfl
  have hsub : hasSublist "checkpoint_".data (checkpointName n) = true := by
    show hasSublist ('c' :: "heckpoint_".data) (('c' :: "heckpoint_".data) ++ pad06 n) = true
    exact hasSublist_self_append _ _ _
  have hsplit : splitUnd (checkpointName n) = ["checkpoint".data, pad06 n] := by
    rw [hname, splitUnd_first_sep _ _ (by decide),
      splitUnd_no_sep _ (pad06_no_underscore n)]
  rw [startIteration, hsub, if_pos rfl, hsplit]
  show (match parseNat (pad06 n) with
        | some k => k + 1
        | none => 1) = n + 1
  rw [parseNat_pad06 n]

/-! Helper lemmas about `takeLast` and the retention invariant. -/

theorem takeLast_of_le {α : Type} (n : Nat) (l : List α) (h : l.length ≤ n) :
    takeLast n l = l := by
  unfold takeLast
  rw [show l.length - n = 0 by omega, List.drop_zero]

theorem length_takeLast {α : Type} (n : Nat) (l : List α) :
    (takeLast n l).length = min n l.length := by
  simp [takeLast]
  omega

theorem takeLast_sublist {α : Type} (n : Nat) (l : List α) :
    List.Sublist (takeLast n l) l := List.drop_sublist _ _

theorem takeLast_append_of_lt {α : Type} (n : Nat) (l : List α) (a : α)
    (h : l.length < n) : takeLast n (l ++ [a]) = l ++ [a] :=
  takeLast_of_le _ _ (by simp; omega)

theorem takeLast_append_of_ge {α : Type} (n : Nat) (l : List α) (a : α)
    (hn : 1 ≤ n) (h : n ≤ l.length) :
    takeLast n (l ++ [a]) = (takeLast n l).drop 1 ++ [a] := by
  unfold takeLast
  rw [List.length_append, List.drop_drop,
    List.drop_append_of_le_length (by simp; omega)]
  congr 2
  simp
  omega

theorem sorted_append_facts (pre : List Nat) (i : Nat)
    (h : (pre ++ [i]).Sorted (· < ·)) :
    pre.Sorted (· < ·) ∧ (∀ x ∈ pre, x < i) := by
  have h' : (pre ++ [i]).Pairwise (· < ·) := h
  rw [List.pairwise_append] at h'
  exact ⟨h'.1, fun x hx => h'.2.2 x hx i (List.mem_singleton_self i)⟩

theorem save_checkpoint_inv (N : Nat) (hN : 1 ≤ N) (pre : List Nat) (i : Nat)
    (hs : (pre ++ [i]).Sorted (· < ·)) :
    save_checkpoint (historyOf N pre) (diskOf N pre) i
      = (historyOf N (pre ++ [i]), diskOf N (pre ++ [i])) := by
  obtain ⟨hpre, hlt⟩ := sorted_append_facts pre i hs
  have hstep1 : save_checkpoint (historyOf N pre) (diskOf N pre) i
      = cleanupOld
          ⟨N, (takeLast N pre).map mkRecord ++ [mkRecord i]⟩
          (insert (checkpointName i) (diskOf N pre)) := by
    unfold save_checkpoint
    rw [if_pos (show 0 < (historyOf N pre).keep_last_n from hN)]
    rfl
  rw [hstep1]
  by_cases hlen : pre.length < N
  · have hK : takeLast N pre = pre := takeLast_of_le N pre (le_of_lt hlen)
    have hK' : takeLast N (pre ++ [i]) = pre ++ [i] :=
      takeLast_append_of_lt N pre i hlen
    have hlen2 :
        ((takeLast N pre).map mkRecord ++ [mkRecord i]).length ≤ N := by
      rw [List.length_append, List.length_map, length_takeLast]
      simp
      omega
    unfold cleanupOld historyOf diskOf
    rw [hK, hK']
    rw [if_pos (by simp; omega)]
    congr 1
    · rw [List.map_append]
      simp
    · rw [List.map_append, List.toFinset_append, Finset.union_comm]
      simp [Finset.insert_eq]
  · have hge : N ≤ pre.length := by omega
    have hKlen : (takeLast N pre).length = N := by
      rw [length_takeLast]; omega
    obtain ⟨j, K', hK⟩ : ∃ j K', takeLast N pre = j :: K' := by
      cases hKc : takeLast N pre with
      | nil => rw [hKc] at hKlen; simp at hKlen; omega
      | cons j K' => exact ⟨j, K', rfl⟩
    have hK'len : K'.length = N - 1 := by
      rw [hK] at hKlen
      simp at hKlen
      omega
    have hKnodup : (takeLast N pre).Nodup :=
      List.Nodup.sublist (takeLast_sublist N pre) hpre.nodup
    have hjK' : j ∉ K' := by
      rw [hK] at hKnodup
      exact (List.nodup_cons.mp hKnodup).1
    have hmemi : ∀ x ∈ takeLast N pre, x < i := fun x hx =>
      hlt x ((takeLast_sublist N pre).subset hx)
    have hji : j < i := hmemi j (by rw [hK]; exact List.mem_cons_self j K')
    have hK'i : ∀ x ∈ K', x < i := fun x hx =>
      hmemi x (by rw [hK]; exact List.mem_cons_of_mem j hx)
    have htL : takeLast N (pre ++ [i]) = K' ++ [i] := by
      rw [takeLast_append_of_ge N pre i hN hge, hK, List.drop_succ_cons,
        List.drop_zero]
    unfold cleanupOld historyOf diskOf
    rw [hK, htL]
    rw [if_neg (by simp; omega)]
    have hcut : ((j :: K').map mkRecord ++ [mkRecord i]).length - N = 1 := by
      simp
      omega
    rw [hcut]
    simp only [List.map_cons, List.cons_append, List.take_succ_cons,
      List.take_zero, List.drop_succ_cons, List.drop_zero, List.foldl_cons,
      List.foldl_nil]
    congr 1
    · rw [List.map_append]
      simp
    · have hpath : (mkRecord j).path = checkpointName j := rfl
      rw [hpath]
      have hS : checkpointName j
          ∉ insert (checkpointName i) ((K'.map checkpointName).toFinset) := by
        simp only [Finset.mem_insert, List.mem_toFinset, List.mem_map, not_or]
        constructor
        · intro habs
          have := checkpointName_inj habs
          omega
        · intro habs
          obtain ⟨x, hx, heq⟩ := habs
          have := checkpointName_inj heq
          subst this
          exact hjK' hx
      calc (insert (checkpointName i)
              (((j :: K').map checkpointName).toFinset)).erase (checkpointName j)
          = (insert (checkpointName j)
              (insert (checkpointName i)
                ((K'.map checkpointName).toFinset))).erase (checkpointName j) := by
            rw [List.map_cons, List.toFinset_cons, Finset.Insert.comm]
        _ = insert (checkpointName i) ((K'.map checkpointName).toFinset) :=
            Finset.erase_insert hS
        _ = ((K' ++ [i]).map checkpointName).toFinset := by
            rw [List.map_append, List.toFinset_append, Finset.union_comm]
            simp [Finset.insert_eq]

theorem saveAll_inv (N : Nat) (hN : 1 ≤ N) :
    ∀ (its pre : List Nat), (pre ++ its).Sorted (· < ·) →
      saveAll (historyOf N pre, diskOf N pre) its
        = (historyOf N (pre ++ its), diskOf N (pre ++ its)) := by
  intro its
  induction its with
  | nil =>
      intro pre h
      simp [saveAll]
  | cons i rest ih =>
      intro pre h
      have hpi : (pre ++ [i]).Sorted (· < ·) := by
        have hsub : List.Sublist (pre ++ [i]) (pre ++ i :: rest) :=
          List.Sublist.append_left
            (List.Sublist.cons₂ i (List.nil_sublist rest)) pre
        exact List.Pairwise.sublist hsub h
      have hassoc : pre ++ i :: rest = (pre ++ [i]) ++ rest := by simp
      have hstep :
          saveAll (historyOf N pre, diskOf N pre) (i :: rest)
            = saveAll (historyOf N (pre ++ [i]), diskOf N (pre ++ [i])) rest := by
        unfold saveAll
        rw [List.foldl_cons]
        have := save_checkpoint_inv N hN pre i hpi
        rw [show save_checkpoint (historyOf N pre, diskOf N pre).1
              (historyOf N pre, diskOf N pre).2 i
            = save_checkpoint (historyOf N pre) (diskOf N pre) i from rfl, this]
      rw [hstep, ih (pre ++ [i]) (by rw [← hassoc]; exact h), hassoc]

theorem historyOf_nil (N : Nat) : historyOf N [] = freshManager N := by
  unfold historyOf freshManager takeLast
  simp

theorem diskOf_nil (N : Nat) : diskOf N [] = ∅ := by
  unfold diskOf takeLast
  simp

/-! Theorems for the claims. -/

/-- C9: `send_message` never raises to its caller: whatever the connection
state and whatever the underlying transport does (success or an exception,
which is caught and printed), the coroutine returns normally and leaves the
connection state unchanged, so at the call site a failed send is
indistinguishable from a successful one. -/
theorem send_message_never_raises (st : Server) (msg : OutMsg) (t : TransportOutcome) :
    (send_message st msg t).outcome = .ok () ∧ (send_message st msg t).state = st := by
  refine ⟨?_, send_message_state st msg t⟩
  unfold send_message
  cases t <;> by_cases h : st.connected && st.hasWebsocket <;> simp [h]

/-- C2 counterexample: a `step` call issued while no peer is connected does
not fail with `NotConnectedError` and does not fail immediately: the skipped
send is only logged, the call then waits on the observation event until the
full 10-second deadline expires, and the result is `TimeoutError`. -/
theorem step_without_peer_times_out :
    initialServer.connected = false ∧
    (serverStep initialServer [] .sendOk []).result
      = .error (.timeoutError replyTimeoutSeconds) ∧
    (serverStep initialServer [] .sendOk []).result ≠ .error .notConnectedError ∧
    replyTimeoutSeconds = 10 := by decide

/-- C2 (amended): for every `step` call issued while no peer is connected,
the outbound command is not delivered (the failure is only logged), and —
no peer being connected, no frame arrives — the call fails with
`TimeoutError` after the full 10-second reply deadline, not with
`NotConnectedError` and not immediately. -/
theorem step_disconnected_waits_deadline (st : Server)
    (a : List (String × BrowserAction)) (t : TransportOutcome)
    (h : st.connected = false) :
    (serverStep st a t []).result = .error (.timeoutError replyTimeoutSeconds) ∧
    (serverStep st a t []).delivered = false ∧
    (serverStep st a t []).log = ["Cannot send message - not connected"] := by
  simp [serverStep, send_message, awaitEvent, h]

/-- Witness for `step_disconnected_waits_deadline` at the freshly
constructed server. -/
theorem step_disconnected_waits_deadline_witness :
    initialServer.connected = false ∧
    (serverStep initialServer [] .sendOk []).result
      = .error (.timeoutError replyTimeoutSeconds) :=
  ⟨rfl, (step_disconnected_waits_deadline initialServer [] .sendOk rfl).1⟩

/-- C1 counterexample: command 0 (`step` on a connected peer whose reply is
late) times out after 10 seconds; the late reply to command 0 (ghost tag
`replyTo = 0`) is then delivered while the next call is waiting, and that
subsequent call returns the stale payload — a reply produced for the
expired call resolves a later call, because replies carry no correlation
to requests. -/
theorem stale_reply_resolves_next_call :
    (serverStep connectedServer [] .sendOk []).result
      = .error (.timeoutError replyTimeoutSeconds) ∧
    (serverStep (serverStep connectedServer [] .sendOk []).state [] .sendOk
        [.observation staleReply]).result = .ok (some staleReply) ∧
    staleReply.replyTo = 0 := by decide

/-- C1 (amended): a late reply delivered after a call's deadline expired but
before the next `reset`/`step` call begins is discarded — every call clears
`pending_observation` and the event before sending, so a call that returns a
payload got it from a frame delivered during its own wait, whatever stale
payload the pre-call state held; a late reply delivered while a subsequent
call is already waiting, however, resolves that call with the stale payload
(see the counterexample). -/
theorem late_reply_before_next_call_discarded :
    (∀ st a t arr p, (serverStep st a t arr).result = .ok (some p) →
        InMsg.observation p ∈ arr) ∧
    (∀ st e t arr p, (reset_episode st e t arr).result = .ok (some p) →
        InMsg.observation p ∈ arr) :=
  ⟨serverStep_ok_mem, reset_episode_ok_mem⟩

/-- Witness for `late_reply_before_next_call_discarded`: a concrete call
whose wait window holds one observation returns it, and that observation is
in the window. -/
theorem late_reply_before_next_call_discarded_witness :
    (serverStep connectedServer [] .sendOk [.observation staleReply]).result
      = .ok (some staleReply) ∧
    InMsg.observation staleReply ∈ [InMsg.observation staleReply] :=
  ⟨by decide, late_reply_before_next_call_discarded.1 connectedServer [] .sendOk
      [.observation staleReply] staleReply (by decide)⟩

/-- C3 counterexample: an `observation` arriving while no call is
outstanding (the freshly constructed, idle server) is not discarded — it is
stored in `pending_observation`, the event is set, and no diagnostic is
printed (the console output of `handle_message` is empty). -/
theorem unsolicited_observation_is_buffered :
    (handle_message initialServer (.observation staleReply)).1.pending_observation
      = some staleReply ∧
    (handle_message initialServer (.observation staleReply)).1.observation_event
      = true ∧
    (handle_message initialServer (.observation staleReply)).2 = [] := by decide

/-- C3 (amended): an inbound `observation` arriving while no call is
outstanding is buffered — `handle_message` stores it in the single
`pending_observation` slot and sets the event, with no diagnostic — but no
later `reset`/`step` call returns it, because every call clears the slot and
the event before sending its own command: a later call's payload always
comes from its own wait window. -/
theorem unsolicited_observation_never_returned (st : Server) (obs : Observation) :
    ((handle_message st (.observation obs)).1.pending_observation = some obs) ∧
    ((handle_message st (.observation obs)).1.observation_event = true) ∧
    ((handle_message st (.observation obs)).2 = []) ∧
    (∀ a t arr p,
      (serverStep (handle_message st (.observation obs)).1 a t arr).result
        = .ok (some p) → InMsg.observation p ∈ arr) ∧
    (∀ e t arr p,
      (reset_episode (handle_message st (.observation obs)).1 e t arr).result
        = .ok (some p) → InMsg.observation p ∈ arr) :=
  ⟨rfl, rfl, rfl,
    fun a t arr p h => serverStep_ok_mem _ a t arr p h,
    fun e t arr p h => reset_episode_ok_mem _ e t arr p h⟩

/-- Witness for `unsolicited_observation_never_returned` at the idle server:
the unsolicited observation is buffered, and a following call whose own
window holds a fresh reply returns that fresh reply, which is in the
window. -/
theorem unsolicited_observation_never_returned_witness :
    ((handle_message initialServer (.observation staleReply)).1.pending_observation
      = some staleReply) ∧
    InMsg.observation { agents := [], episode_done := none, replyTo := 1 }
      ∈ [InMsg.observation { agents := [], episode_done := none, replyTo := 1 }] :=
  ⟨(unsolicited_observation_never_returned initialServer staleReply).1,
    (unsolicited_observation_never_returned initialServer staleReply).2.2.2.1
      [] .sendOk [.observation { agents := [], episode_done := none, replyTo := 1 }]
      { agents := [], episode_done := none, replyTo := 1 } (by decide)⟩

/-- C7: for every `step` call, the returned global `terminateds['__all__']`
flag equals the reply's `episode_done` (default `False`) and the global
`truncateds['__all__']` flag equals the comparison of the incremented step
counter against the configured `max_steps`; the two signals are computed
independently, so the caller can distinguish termination from truncation. -/
theorem step_terminated_truncated_distinct (st : MinecraftEnv)
    (action_dict : List (String × (Fin 7 → ℚ))) (step_data : Observation) :
    ((envStep st action_dict step_data).2.2.terminatedAll
        = step_data.episode_done.getD false) ∧
    ((envStep st action_dict step_data).2.2.truncatedAll
        = decide (st.current_step + 1 ≥ st.max_steps)) :=
  ⟨rfl, rfl⟩

/-- C8: for every 7-component per-actor action vector, components 0-3 pass
through unchanged as the continuous channels and components 4-6 become the
booleans `jump`, `place_block`, `remove_block`, each true exactly when the
component is strictly greater than 0.5; the outbound `step` command carries
exactly this conversion for every actor. -/
theorem action_vector_mapping (a : Fin 7 → ℚ) :
    (toBrowserAction a).movement_forward = a 0 ∧
    (toBrowserAction a).movement_strafe = a 1 ∧
    (toBrowserAction a).rotation = a 2 ∧
    (toBrowserAction a).look = a 3 ∧
    ((toBrowserAction a).jump = true ↔ a 4 > 0.5) ∧
    ((toBrowserAction a).place_block = true ↔ a 5 > 0.5) ∧
    ((toBrowserAction a).remove_block = true ↔ a 6 > 0.5) ∧
    (∀ (action_dict : List (String × (Fin 7 → ℚ))) (st : MinecraftEnv)
        (data : Observation),
      (envStep st action_dict data).2.1
        = action_dict.map (fun p => (p.1, toBrowserAction p.2))) := by
  refine ⟨rfl, rfl, rfl, rfl, ?_, ?_, ?_, fun _ _ _ => rfl⟩ <;>
    simp [toBrowserAction]

/-- C10: the episode identifier is generated internally: every `reset`
increments the episode counter by exactly one and zeroes the step counter,
and sends a `reset` command carrying the incremented counter, whatever
`seed` and `options` are passed; hence the episode numbers sent by the
first n resets since construction are exactly 1, 2, ..., n. -/
theorem reset_generates_episode_numbers (max_steps : Nat)
    (calls : List (Option Nat × Option String × Observation)) :
    resetEpisodesSent (initialEnv max_steps) calls
      = List.range' 1 calls.length ∧
    (∀ (st : MinecraftEnv) (seed : Option Nat) (options : Option String)
        (obs : Observation),
      ((envReset st seed options obs).1.current_episode = st.current_episode + 1) ∧
      ((envReset st seed options obs).1.current_step = 0) ∧
      ((envReset st seed options obs).2.1
        = OutMsg.resetCmd (st.current_episode + 1))) := by
  have hreset : ∀ (st : MinecraftEnv) (seed : Option Nat) (options : Option String)
      (obs : Observation),
      ((envReset st seed options obs).1.current_episode = st.current_episode + 1) ∧
      ((envReset st seed options obs).1.current_step = 0) ∧
      ((envReset st seed options obs).2.1
        = OutMsg.resetCmd (st.current_episode + 1)) := by
    intro st seed options obs
    refine ⟨?_, ?_, rfl⟩
    · show (registerAgents _ obs.agents).current_episode = _
      rw [(registerAgents_counters obs.agents _).1]
    · show (registerAgents _ obs.agents).current_step = _
      rw [(registerAgents_counters obs.agents _).2]
  refine ⟨?_, hreset⟩
  have htrace : ∀ (calls : List (Option Nat × Option String × Observation))
      (st : MinecraftEnv),
      resetEpisodesSent st calls
        = List.range' (st.current_episode + 1) calls.length := by
    intro calls
    induction calls with
    | nil => intro st; rfl
    | cons c rest ih =>
        intro st
        obtain ⟨seed, options, obs⟩ := c
        rw [resetEpisodesSent]
        obtain ⟨h1, _, h3⟩ := hreset st seed options obs
        rw [h3, ih _, h1, List.length_cons, List.range'_succ]
  exact htrace calls (initialEnv max_steps)

/-- C4: for every retention `N ≥ 1` and every sequence of `M > N` saves at
strictly increasing iterations, after the `M`-th save the index holds
exactly the `N` records of the `N` highest (most recent) iterations — the
last `N` of the sorted sequence — and the checkpoint root holds exactly the
`N` directories named after them; the older directories have been deleted
and their records removed.  Moreover every pruned iteration is strictly
below every kept one. -/
theorem prune_keeps_last_n (N : Nat) (its : List Nat) (hN : 1 ≤ N)
    (hsorted : its.Sorted (· < ·)) (hM : N < its.length) :
    (saveAll (freshManager N, (∅ : Finset (List Char))) its).1.checkpoint_history
      = (takeLast N its).map mkRecord ∧
    (saveAll (freshManager N, ∅) its).1.checkpoint_history.length = N ∧
    (saveAll (freshManager N, ∅) its).2
      = ((takeLast N its).map checkpointName).toFinset ∧
    (saveAll (freshManager N, ∅) its).2.card = N ∧
    (∀ x ∈ its, x ∉ takeLast N its → ∀ y ∈ takeLast N its, x < y) := by
  have h := saveAll_inv N hN its [] (by simpa using hsorted)
  rw [historyOf_nil, diskOf_nil, List.nil_append] at h
  have hlenL : (takeLast N its).length = N := by
    rw [length_takeLast]; omega
  have hnodup : ((takeLast N its).map checkpointName).Nodup :=
    List.Nodup.map checkpointName_inj
      (List.Nodup.sublist (takeLast_sublist N its) hsorted.nodup)
  refine ⟨?_, ?_, ?_, ?_, ?_⟩
  · rw [h]
    rfl
  · rw [h]
    show ((takeLast N its).map mkRecord).length = N
    rw [List.length_map, hlenL]
  · rw [h]
    rfl
  · rw [h]
    show (((takeLast N its).map checkpointName).toFinset).card = N
    rw [List.toFinset_card_of_nodup hnodup, List.length_map, hlenL]
  · intro x hx hnot y hy
    have hdecomp : its.take (its.length - N) ++ takeLast N its = its :=
      List.take_append_drop _ its
    have hsort2 : (its.take (its.length - N) ++ takeLast N its).Pairwise (· < ·) := by
      rw [hdecomp]; exact hsorted
    rw [List.pairwise_append] at hsort2
    have hxtake : x ∈ its.take (its.length - N) := by
      rcases List.mem_append.mp (by rw [hdecomp]; exact hx) with h' | h'
      · exact h'
      · exact absurd h' hnot
    exact hsort2.2.2 x hxtake y hy

/-- Witness for `prune_keeps_last_n`: retention 1, saves at iterations 1
then 2 — only the record and directory of iteration 2 remain. -/
theorem prune_keeps_last_n_witness :
    (1 ≤ 1 ∧ ([1, 2] : List Nat).Sorted (· < ·) ∧ 1 < ([1, 2] : List Nat).length) ∧
    (saveAll (freshManager 1, (∅ : Finset (List Char))) [1, 2]).1.checkpoint_history
      = (takeLast 1 [1, 2]).map mkRecord ∧
    (saveAll (freshManager 1, ∅) [1, 2]).2.card = 1 := by
  have hs : ([1, 2] : List Nat).Sorted (· < ·) := by
    constructor
    · intro b hb
      simp at hb
      omega
    · constructor
      · intro b hb
        simp at hb
      · constructor
  have h := prune_keeps_last_n 1 [1, 2] (by omega) hs (by simp)
  exact ⟨⟨by omega, hs, by simp⟩, h.1, h.2.2.2.1⟩

/-- C5 counterexample: a root with no `checkpoint_index.json` but with the
checkpoint directory of iteration 5 on disk — the restarted manager's
history is empty and `get_latest_checkpoint` returns `None`, not that
highest-iteration directory. -/
theorem load_without_index_ignores_disk :
    (load_checkpoint_index 10
        { index_file := none, dirs := {checkpointName 5} }).checkpoint_history
      = [] ∧
    get_latest_checkpoint (load_checkpoint_index 10
        { index_file := none, dirs := {checkpointName 5} }) = none ∧
    checkpointName 5 ∈
      ({ index_file := none, dirs := {checkpointName 5} } : CheckpointFS).dirs := by
  refine ⟨rfl, rfl, ?_⟩
  simp

/-- C5 (amended): on startup `_load_checkpoint_index` installs the persisted
index file's records when that file is present; when it is absent the
Checkpoint Manager does not scan the checkpoint root — it starts with an
empty history, and `get_latest_checkpoint` returns `None` whatever
checkpoint directories exist on disk.  (A directory-scan fallback exists
only in the demo's `select_checkpoint`, outside the Checkpoint Manager.) -/
theorem load_index_only_no_scan (keep : Nat) (records : List CheckpointRecord)
    (dirs : Finset (List Char)) :
    ((load_checkpoint_index keep
        { index_file := some records, dirs := dirs }).checkpoint_history
      = records) ∧
    ((load_checkpoint_index keep
        { index_file := none, dirs := dirs }).checkpoint_history = []) ∧
    (get_latest_checkpoint (load_checkpoint_index keep
        { index_file := none, dirs := dirs }) = none) :=
  ⟨rfl, rfl, rfl⟩

/-- C6: a checkpoint saved at iteration `n ≥ 1` gets the directory name
`"checkpoint_"` followed by `n` zero-padded to width 6, and restoring
training from that directory resumes numbering at iteration `n + 1` rather
than restarting from 1. -/
theorem restore_resumes_at_next_iteration (n : Nat) (h : 1 ≤ n) :
    checkpointName n = "checkpoint_".data ++ pad06 n ∧
    startIteration (some (checkpointName n)) = n + 1 ∧
    startIteration (some (checkpointName n)) ≠ 1 := by
  refine ⟨rfl, startIteration_checkpointName n, ?_⟩
  rw [startIteration_checkpointName n]
  omega

/-- Witness for `restore_resumes_at_next_iteration` at iteration 50. -/
theorem restore_resumes_at_next_iteration_witness :
    (1 : Nat) ≤ 50 ∧ startIteration (some (checkpointName 50)) = 51 :=
  ⟨by omega, (restore_resumes_at_next_iteration 50 (by omega)).2.1⟩

end MinecraftRL
